import Mathlib

/-!
Verification of the ClusterGCN mini-batch generator
(`stellargraph/mapper/mini_batch_node_generators.py`).

The development shallowly embeds the two classes of the module:

* `ClusterNodeGenerator.__init__` — constructor validation and the random
  auto-partition of the node list (`generatorInit`, `autoPartition`);
* `ClusterNodeSequence` — the per-epoch stateful batch iterator
  (`SeqState`, `getItemState`, `onEpochEnd`) and the sparse adjacency
  normalization performed inside `__getitem__` (`normalizeAdj`).

Randomness (`random.shuffle`) is modelled by passing the shuffled outcome
as an explicit argument, constrained to be a permutation where a theorem
needs it.  Python floats are modelled as rationals, Python dicts as
insertion-ordered association lists.
-/

namespace ClusterGCN

/-! ## Adjacency normalization (`ClusterNodeSequence.__getitem__`, lines 297-307)

Matrices over the subgraph's node positions are functions
`Fin n → Fin n → ℚ`.  The code performs, in order:
`adj.setdiag(1)`; `d = 1.0 / (adj.sum(axis=1) + 1)`;
`adj = diag(d) @ adj`; `adj.setdiag((1 + lam) * adj.diagonal())`. -/

/-- `A.setdiag(c)` of scipy: replace the diagonal, keep all other entries. -/
def setDiag {n : ℕ} (A : Fin n → Fin n → ℚ) (c : Fin n → ℚ) : Fin n → Fin n → ℚ :=
  fun i j => if i = j then c i else A i j

/-- `A.sum(axis=1)`: the vector of row sums. -/
def rowSums {n : ℕ} (A : Fin n → Fin n → ℚ) : Fin n → ℚ :=
  fun i => ∑ j, A i j

/-- `sparse.lil_matrix` with `setdiag(d)`: the diagonal matrix of a vector. -/
def diagMatrix {n : ℕ} (d : Fin n → ℚ) : Fin n → Fin n → ℚ :=
  fun i j => if i = j then d i else 0

/-- Matrix product `A @ B`. -/
def matMul {n : ℕ} (A B : Fin n → Fin n → ℚ) : Fin n → Fin n → ℚ :=
  fun i k => ∑ j, A i j * B j k

/-- The `normalize_adj` branch of `ClusterNodeSequence.__getitem__`:
add self loops, scale rows by `1 / (rowsum + 1)`, then multiply the
diagonal of the product by `1 + lam`. -/
def normalizeAdj {n : ℕ} (lam : ℚ) (A : Fin n → Fin n → ℚ) : Fin n → Fin n → ℚ :=
  let A1 := setDiag A (fun _ => 1)
  let d := fun i => 1 / (rowSums A1 i + 1)
  let P := matMul (diagMatrix d) A1
  setDiag P (fun i => (1 + lam) * P i i)

/-! ## Constructor validation (`ClusterNodeGenerator.__init__`, lines 63-151) -/

/-- A Python numeric argument: `isinstance(x, float)` distinguishes the two. -/
inductive PyNumber where
  | float (x : ℚ)
  | int (n : ℤ)
deriving DecidableEq

/-- The `clusters` argument: `int` cluster count or explicit list of clusters
(node ids are naturals). -/
inductive ClustersArg where
  | int (n : ℤ)
  | list (cs : List (List ℕ))
deriving DecidableEq

/-- The exceptions the constructors can raise, in code order. -/
inductive InitError where
  | clustersValue
  | lamType
  | lamValue
  | qType
  | qValue
  | divisibility
  | graphMl
  | multiNodeType
  | rangeStepZero
  | zeroDivision
deriving DecidableEq

/-- Lines 90-96: `lam` must be a `float`, then must lie in `[0, 1]`. -/
def checkLam : PyNumber → Except InitError Unit
  | .int _ => .error .lamType
  | .float x => if x < 0 ∨ x > 1 then .error .lamValue else .ok ()

/-- Lines 98-104: `q` must be an `int`, then must be positive. -/
def checkQ : PyNumber → Except InitError ℕ
  | .float _ => .error .qType
  | .int n => if n ≤ 0 then .error .qValue else .ok n.toNat

/-- Lines 74-87: the cluster count `k` from the `clusters` argument. -/
def clusterCount : ClustersArg → Except InitError ℕ
  | .list cs => .ok cs.length
  | .int n => if n ≤ 0 then .error .clustersValue else .ok n.toNat

/-- Python slicing `[all_nodes[i : i + c] for i in range(0, len(all_nodes), c)]`
for a positive step `c`: `ceil(len / c)` chunks. -/
def pySlices (xs : List ℕ) (c : ℕ) : List (List ℕ) :=
  (List.range ((xs.length + c - 1) / c)).map (fun i => (xs.drop (i * c)).take c)

/-- Lines 140-144: `clusters[-2].extend(clusters[-1]); del clusters[-1]`. -/
def mergeLastTwo (cs : List (List ℕ)) : List (List ℕ) :=
  cs.take (cs.length - 2) ++ [cs.getD (cs.length - 2) [] ++ cs.getD (cs.length - 1) []]

/-- Lines 130-144: auto-partition of the (already shuffled) node list into
`k` clusters.  `cluster_size = len // k`; a zero step makes Python's
`range` raise; if slicing yields more than `k` chunks, the last chunk is
merged into the second-to-last one (once). -/
def autoPartition (allNodes : List ℕ) (k : ℕ) : Except InitError (List (List ℕ)) :=
  let c := allNodes.length / k
  if c = 0 then .error .rangeStepZero
  else
    let clusters := pySlices allNodes c
    if k < clusters.length then .ok (mergeLastTwo clusters)
    else .ok clusters

/-- `ClusterNodeGenerator.__init__`: the validation chain in source order
(clusters, lam, q, divisibility of `k` by `q`, graph feature check, single
node type check), then the final cluster list (auto-partitioned from the
shuffled node list when `clusters` is an int). -/
def generatorInit (clusters : ClustersArg) (lam q : PyNumber)
    (graphFeaturesOk singleNodeType : Bool) (allNodes : List ℕ) :
    Except InitError (List (List ℕ)) :=
  match clusterCount clusters with
  | .error e => .error e
  | .ok k =>
    match checkLam lam with
    | .error e => .error e
    | .ok _ =>
      match checkQ q with
      | .error e => .error e
      | .ok qv =>
        if k % qv ≠ 0 then .error .divisibility
        else if graphFeaturesOk = false then .error .graphMl
        else if singleNodeType = false then .error .multiNodeType
        else
          match clusters with
          | .list cs => .ok cs
          | .int _ => autoPartition allNodes k

/-- Lines 249-254 of `ClusterNodeSequence.__init__`:
`len(clusters) % q != 0` is an error (`q = 0` would be Python's
`ZeroDivisionError`). -/
def seqInitCheck (clusters : List (List ℕ)) (q : ℕ) : Except InitError Unit :=
  if q = 0 then .error .zeroDivision
  else if clusters.length % q ≠ 0 then .error .divisibility
  else .ok ()

/-! ## The sequence state (`ClusterNodeSequence`) -/

/-- The graph collaborator: all the sequence uses of it that matter here is
the node list (`graph.nodes()`), assumed duplicate-free by the graph class. -/
structure PyGraph where
  nodes : List ℕ

/-- The mutable state of a `ClusterNodeSequence`:
the frozen `clusters_original`, the working `clusters`, the combination
factor `q`, the target ids, the insertion-ordered node buffer dict and the
`node_order` list. -/
structure SeqState where
  clustersOriginal : List (List ℕ)
  clusters : List (List ℕ)
  q : ℕ
  targetIds : List ℕ
  nodeBuffer : List (ℕ × List ℕ)
  nodeOrder : List ℕ

/-- `len(self)` (lines 279-281): `len(clusters_original) // q`. -/
def numBatches (s : SeqState) : ℕ := s.clustersOriginal.length / s.q

/-- `graph.subgraph(cluster).nodes()`: the graph's nodes restricted to the
cluster (node ids absent from the graph are silently dropped by networkx). -/
def pySubgraphNodes (g : PyGraph) (cluster : List ℕ) : List ℕ :=
  g.nodes.filter (fun v => cluster.contains v)

/-- `list(set(g_node_list).intersection(target_ids))` (lines 312-314):
the distinct subgraph nodes that are target ids (set order is
implementation defined; we fix one). -/
def targetNodesInCluster (gNodeList targetIds : List ℕ) : List ℕ :=
  gNodeList.dedup.filter (fun v => targetIds.contains v)

/-- `dict(zip(keys, range(len(keys))))[v]` as an `Option`: the value of the
last occurrence of `v` among `keys`, or `none` (Python's `KeyError`). -/
def pyDictLookup (keys : List ℕ) (v : ℕ) : Option ℕ :=
  ((keys.zip (List.range keys.length)).reverse).lookup v

/-- Insertion into a Python dict modelled as an ordered association list:
an existing key keeps its position and gets the new value, a fresh key is
appended. -/
def bufferInsert (buf : List (ℕ × List ℕ)) (i : ℕ) (v : List ℕ) : List (ℕ × List ℕ) :=
  if buf.any (fun p => p.1 = i) then buf.map (fun p => if p.1 = i then (i, v) else p)
  else buf ++ [(i, v)]

/-- The state effect of `ClusterNodeSequence.__getitem__(index)`
(lines 283-347): record `(index, target_nodes_in_cluster)` in the node
buffer; if `index` is the last batch index
(`len(clusters_original) // q - 1`), flatten the buffer — in its stored
(insertion) order — into `node_order`. -/
def getItemState (g : PyGraph) (s : SeqState) (index : ℕ) : SeqState :=
  let v := targetNodesInCluster (pySubgraphNodes g (s.clusters.getD index [])) s.targetIds
  let buf := bufferInsert s.nodeBuffer index v
  { s with
    nodeBuffer := buf
    nodeOrder :=
      if index = s.clustersOriginal.length / s.q - 1 then buf.flatMap (fun p => p.2)
      else s.nodeOrder }

/-- Python `range(0, stop, step)` for a positive step. -/
def pyRange (stop step : ℕ) : List ℕ :=
  (List.range ((stop + step - 1) / step)).map (fun i => i * step)

/-- Lines 358-371 of `on_epoch_end`, before the final shuffle: when
`q > 1`, walk the shuffled index list `idxPerm` in steps of `q` over
`range(0, len - 1, q)` and concatenate each group's clusters; when
`q == 1`, a (deep) copy of `clusters_original`. -/
def combineClusters (orig : List (List ℕ)) (q : ℕ) (idxPerm : List ℕ) : List (List ℕ) :=
  if 1 < q then
    (pyRange (orig.length - 1) q).map
      (fun i => ((idxPerm.drop i).take q).flatMap (fun l => orig.getD l []))
  else orig

/-- `random.shuffle(self.clusters)` outcome: reading the list through a
permutation of its positions. -/
def applyShuffle (cs : List (List ℕ)) (outPerm : List ℕ) : List (List ℕ) :=
  outPerm.map (fun i => cs.getD i [])

/-- `ClusterNodeSequence.on_epoch_end` (lines 354-375): rebuild the working
cluster list from `clusters_original`, clear the node buffer, shuffle the
working list.  The two `random.shuffle` outcomes are the explicit
arguments `idxPerm` (cluster indices) and `outPerm` (final list order). -/
def onEpochEnd (s : SeqState) (idxPerm outPerm : List ℕ) : SeqState :=
  { s with
    clusters := applyShuffle (combineClusters s.clustersOriginal s.q idxPerm) outPerm
    nodeBuffer := [] }

/-- An observable operation on a live sequence. -/
inductive SeqOp where
  | get (i : ℕ)
  | epochEnd (idxPerm outPerm : List ℕ)

/-- Apply one operation to the state. -/
def applyOp (g : PyGraph) (s : SeqState) : SeqOp → SeqState
  | .get i => getItemState g s i
  | .epochEnd p1 p2 => onEpochEnd s p1 p2

/-- Run a whole sequence of operations. -/
def runOps (g : PyGraph) (s : SeqState) (ops : List SeqOp) : SeqState :=
  ops.foldl (applyOp g) s

/-- Retrieve the batches of one epoch in the given index order. -/
def runGets (g : PyGraph) (s : SeqState) (order : List ℕ) : SeqState :=
  order.foldl (getItemState g) s

/-- The target-node list of batch `i` as `__getitem__` computes it;
it depends only on the working clusters and the target ids. -/
def tnic (g : PyGraph) (s : SeqState) (i : ℕ) : List ℕ :=
  targetNodesInCluster (pySubgraphNodes g (s.clusters.getD i [])) s.targetIds


/-! ## Theorems: adjacency normalization -/

/-- Closed form of one entry of the normalized adjacency: left-multiplying
by the diagonal degree matrix scales row `u` by `1 / (rowsum + 1)`, and the
final `setdiag` call multiplies only the diagonal by `1 + lam`. -/
theorem normalizeAdj_apply {n : ℕ} (lam : ℚ) (A : Fin n → Fin n → ℚ) (u w : Fin n) :
    normalizeAdj lam A u w =
      if u = w then
        (1 + lam) * ((1 / (rowSums (setDiag A fun _ => 1) u + 1)) * setDiag A (fun _ => 1) u u)
      else (1 / (rowSums (setDiag A fun _ => 1) u + 1)) * setDiag A (fun _ => 1) u w := by
  have key : ∀ j : Fin n,
      matMul (diagMatrix fun v => 1 / (rowSums (setDiag A fun _ => 1) v + 1))
        (setDiag A fun _ => 1) u j
      = (1 / (rowSums (setDiag A fun _ => 1) u + 1)) * setDiag A (fun _ => 1) u j := by
    intro j
    simp only [matMul, diagMatrix, ite_mul, zero_mul]
    rw [Finset.sum_ite_eq]
    simp
  simp only [normalizeAdj]
  rcases eq_or_ne u w with h | h
  · subst h
    simp only [setDiag, if_pos rfl, key u]
  · simp only [setDiag, if_neg h, key w]



/-- C1: for every adjacency matrix `A` and every `lam`, with normalization
enabled the returned matrix has, writing `A1` for `A` with its diagonal set
to `1` and `d v = 1 / (rowsum of A1 at v + 1)`, off-diagonal entry
`(u, w)` equal to `d u * A1 u w` and diagonal entry `(u, u)` equal to
`(1 + lam) * d u * A1 u u`. -/
theorem C1_normalized_adjacency_formula {n : ℕ} (lam : ℚ) (A : Fin n → Fin n → ℚ)
    (u w : Fin n) :
    normalizeAdj lam A u w =
      if u = w then
        (1 + lam) * (1 / (rowSums (setDiag A fun _ => 1) u + 1)) * setDiag A (fun _ => 1) u u
      else (1 / (rowSums (setDiag A fun _ => 1) u + 1)) * setDiag A (fun _ => 1) u w := by
  rw [normalizeAdj_apply]
  rcases eq_or_ne u w with h | h
  · simp only [if_pos h]
    ring
  · simp only [if_neg h]

/-- C3 counterexample: for a one-node cluster with no edges and the default
`lam = 1/10`, the diagonal entry of the normalized adjacency is
`(1 + lam) / 2 = 11/20`, not `1 + lam = 11/10` as the claim states
(the self-looped row sum is `1`, so the scaling is `1 / (1 + 1) = 1/2`). -/
theorem C3_counterexample :
    normalizeAdj (1/10) (fun _ _ : Fin 1 => (0:ℚ)) 0 0 = 11/20 ∧
    (11/20 : ℚ) ≠ 1 + 1/10 := by
  constructor
  · rw [normalizeAdj_apply]
    simp [setDiag, rowSums, Fin.sum_univ_one]
    norm_num
  · norm_num

/-- C3 amended: for a cluster whose induced subgraph has no edges, with
normalization enabled, every diagonal entry of the returned matrix equals
`(1 + lam) / 2` and every off-diagonal entry equals `0`. -/
theorem C3_no_edge_normalization {n : ℕ} (lam : ℚ) (u w : Fin n) :
    normalizeAdj lam (fun _ _ => 0) u w = if u = w then (1 + lam) / 2 else 0 := by
  rw [normalizeAdj_apply]
  have hrow : rowSums (setDiag (fun _ _ : Fin n => (0:ℚ)) fun _ => 1) u = 1 := by
    simp only [rowSums, setDiag]
    rw [Finset.sum_ite_eq]
    simp
  rcases eq_or_ne u w with h | h
  · simp only [if_pos h, hrow, setDiag, if_pos rfl]
    norm_num
    ring
  · simp only [if_neg h, hrow, setDiag, if_neg h]
    norm_num

/-! ## Theorems: auto-partition and constructor validation -/

/-- C2: evaluation of the auto-partition at the failing input.  With 7
nodes and `k = 4` the chunk size is `7 // 4 = 1`, slicing yields 7
singleton chunks, and the single merge of the last chunk into the
second-to-last leaves 6 clusters — not the 4 the code's own comment and
the spec promise.  (Sizes still sum to 7 and every node appears once.) -/
theorem C2_autopartition_count_failure :
    autoPartition [0, 1, 2, 3, 4, 5, 6] 4
      = .ok [[0], [1], [2], [3], [4], [5, 6]] ∧
    ([[0], [1], [2], [3], [4], [5, 6]] : List (List ℕ)).length = 6 ∧ (6 : ℕ) ≠ 4 := by
  refine ⟨rfl, by decide, by decide⟩

/-- C9: `clusters_original` is fixed after construction: no run of batch
retrievals and epoch-end invocations, in any order, changes it (only the
working list `clusters`, the buffer and `node_order` are touched). -/
theorem C9_clusters_original_immutable (g : PyGraph) (s : SeqState) (ops : List SeqOp) :
    (runOps g s ops).clustersOriginal = s.clustersOriginal := by
  induction ops generalizing s with
  | nil => rfl
  | cons op tl ih =>
    cases op with
    | get i => exact (ih (getItemState g s i)).trans rfl
    | epochEnd p1 p2 => exact (ih (onEpochEnd s p1 p2)).trans rfl

/-- Result classification: `checkQ` only raises the q errors. -/
theorem checkQ_error_cases {q : PyNumber} {e : InitError} (h : checkQ q = .error e) :
    e = .qType ∨ e = .qValue := by
  rcases q with x | n
  · exact .inl (by injection h with h; exact h.symm)
  · by_cases hn : n ≤ 0
    · rw [checkQ, if_pos hn] at h
      exact .inr (by injection h with h; exact h.symm)
    · rw [checkQ, if_neg hn] at h
      exact absurd h (by simp)

/-- Result classification: `autoPartition` only raises the range error. -/
theorem autoPartition_error_cases {a : List ℕ} {k : ℕ} {e : InitError}
    (h : autoPartition a k = .error e) : e = .rangeStepZero := by
  by_cases hc : a.length / k = 0
  · rw [autoPartition] at h
    simp only [if_pos hc] at h
    injection h with h
    exact h.symm
  · rw [autoPartition] at h
    simp only [if_neg hc] at h
    split at h <;> exact absurd h (by simp)

/-- A lam-specific rejection: the result is the `TypeError` or the
`ValueError` that the lam validation raises. -/
def isLamError : Except InitError (List (List ℕ)) → Prop
  | .error .lamType => True
  | .error .lamValue => True
  | _ => False

theorem isLamError_error_iff (e : InitError) :
    isLamError (.error e) ↔ e = .lamType ∨ e = .lamValue := by
  cases e <;> simp [isLamError]

theorem not_isLamError_ok (cs : List (List ℕ)) : ¬ isLamError (.ok cs) := by
  simp [isLamError]

/-- C6: the generator's constructor succeeds only when the cluster count is
exactly divisible by `q`; when it is not — the earlier checks passing — it
raises the invalid-config error; and the sequence's constructor accepts its
cluster list exactly when the divisibility holds. -/
theorem C6_divisibility_check (clusters : ClustersArg) (lam q : PyNumber)
    (gOk oneT : Bool) (allNodes : List ℕ) (k qv : ℕ)
    (hk : clusterCount clusters = .ok k) (hq : checkQ q = .ok qv) :
    (∀ cs, generatorInit clusters lam q gOk oneT allNodes = .ok cs → k % qv = 0) ∧
    (checkLam lam = .ok () → k % qv ≠ 0 →
      generatorInit clusters lam q gOk oneT allNodes = .error .divisibility) ∧
    (∀ wcs : List (List ℕ), ∀ wq : ℕ, 0 < wq →
      (seqInitCheck wcs wq = .ok () ↔ wcs.length % wq = 0)) := by
  refine ⟨?_, ?_, ?_⟩
  · intro cs hok
    by_contra hnd
    simp only [generatorInit, hk] at hok
    rcases hlam : checkLam lam with e | u
    · simp only [hlam] at hok
      exact Except.noConfusion hok
    · simp only [hlam, hq] at hok
      rw [if_pos hnd] at hok
      exact Except.noConfusion hok
  · intro hlam hnd
    simp only [generatorInit, hk, hlam, hq]
    rw [if_pos hnd]
  · intro wcs wq hwq
    have h0 : ¬ wq = 0 := Nat.pos_iff_ne_zero.mp hwq
    simp only [seqInitCheck, if_neg h0]
    by_cases hm : wcs.length % wq = 0
    · simp [hm]
    · simp [hm]

/-- C6 witness: three clusters with `q = 2` (and an in-range `lam`) hit the
divisibility error. -/
theorem C6_divisibility_check_witness :
    clusterCount (.list [[0], [1], [2]]) = .ok 3 ∧
    checkQ (.int 2) = .ok 2 ∧
    ((∀ cs, generatorInit (.list [[0], [1], [2]]) (.float (1/10)) (.int 2) true true []
        = .ok cs → 3 % 2 = 0) ∧
     (checkLam (.float (1/10)) = .ok () → 3 % 2 ≠ 0 →
       generatorInit (.list [[0], [1], [2]]) (.float (1/10)) (.int 2) true true []
         = .error .divisibility) ∧
     (∀ wcs : List (List ℕ), ∀ wq : ℕ, 0 < wq →
       (seqInitCheck wcs wq = .ok () ↔ wcs.length % wq = 0))) :=
  ⟨rfl, rfl, C6_divisibility_check (.list [[0], [1], [2]]) (.float (1/10)) (.int 2)
    true true [] 3 2 rfl rfl⟩

/-- C7 counterexample: the Python integer `0` is numeric and lies in
`[0, 1]`, yet the constructor rejects it — `isinstance(lam, float)` fails
for ints — so "raises an error iff lam is outside [0, 1]" is false. -/
theorem C7_counterexample :
    ((0:ℤ) ≥ 0 ∧ (0:ℤ) ≤ 1) ∧
    generatorInit (.list [[0], [1]]) (.int 0) (.int 1) true true []
      = .error .lamType :=
  ⟨by decide, rfl⟩

/-- C7 amended: with a well-formed clusters argument, a float `lam` makes
the constructor raise a lam error exactly when `lam` is outside `[0, 1]`,
while an integer `lam` — numeric though it is — is always rejected with the
lam TypeError. -/
theorem C7_lam_validation (cs : List (List ℕ)) (x : ℚ) (m : ℤ) (q : PyNumber)
    (gOk oneT : Bool) (allNodes : List ℕ) :
    (isLamError (generatorInit (.list cs) (.float x) q gOk oneT allNodes)
      ↔ x < 0 ∨ x > 1) ∧
    generatorInit (.list cs) (.int m) q gOk oneT allNodes = .error .lamType := by
  constructor
  · by_cases hx : x < 0 ∨ x > 1
    · simp only [generatorInit, clusterCount, checkLam, if_pos hx]
      exact iff_of_true (by simp [isLamError]) hx
    · refine iff_of_false ?_ hx
      simp only [generatorInit, clusterCount, checkLam, if_neg hx]
      intro hbad
      rcases hq : checkQ q with e | qv
      · simp only [hq] at hbad
        rcases (isLamError_error_iff e).mp hbad with he | he <;>
          rcases checkQ_error_cases hq with h2 | h2 <;> simp [he] at h2
      · simp only [hq] at hbad
        by_cases hd : cs.length % qv ≠ 0
        · rw [if_pos hd] at hbad
          simp [isLamError] at hbad
        · rw [if_neg hd] at hbad
          cases gOk <;> cases oneT <;> simp [isLamError] at hbad
  · simp only [generatorInit, clusterCount, checkLam]

/-! ## Theorems: the per-epoch state machine -/

theorem getItemState_clusters (g : PyGraph) (s : SeqState) (i : ℕ) :
    (getItemState g s i).clusters = s.clusters := rfl

theorem getItemState_q (g : PyGraph) (s : SeqState) (i : ℕ) :
    (getItemState g s i).q = s.q := rfl

theorem getItemState_targetIds (g : PyGraph) (s : SeqState) (i : ℕ) :
    (getItemState g s i).targetIds = s.targetIds := rfl

theorem getItemState_clustersOriginal (g : PyGraph) (s : SeqState) (i : ℕ) :
    (getItemState g s i).clustersOriginal = s.clustersOriginal := rfl

theorem tnic_getItemState (g : PyGraph) (s : SeqState) (i j : ℕ) :
    tnic g (getItemState g s j) i = tnic g s i := rfl

theorem numBatches_getItemState (g : PyGraph) (s : SeqState) (j : ℕ) :
    numBatches (getItemState g s j) = numBatches s := rfl

/-- Batch retrieval does not touch the frozen and configuration fields. -/
theorem runGets_frame (g : PyGraph) (os : List ℕ) (s : SeqState) :
    (runGets g s os).clusters = s.clusters ∧
    (runGets g s os).clustersOriginal = s.clustersOriginal ∧
    (runGets g s os).q = s.q ∧
    (runGets g s os).targetIds = s.targetIds := by
  induction os generalizing s with
  | nil => exact ⟨rfl, rfl, rfl, rfl⟩
  | cons i tl ih => exact ih (getItemState g s i)

/-- Inserting a fresh key into the buffer dict appends the entry. -/
theorem bufferInsert_fresh {buf : List (ℕ × List ℕ)} {i : ℕ} (v : List ℕ)
    (h : ∀ p ∈ buf, p.1 ≠ i) : bufferInsert buf i v = buf ++ [(i, v)] := by
  rw [bufferInsert, if_neg]
  simp only [List.any_eq_true, decide_eq_true_eq, not_exists, not_and]
  exact fun p hp => h p hp

/-- Retrieving a duplicate-free list of fresh batch indices appends one
buffer entry per index, in retrieval order. -/
theorem runGets_nodeBuffer (g : PyGraph) (os : List ℕ) : ∀ (s : SeqState),
    os.Nodup → (∀ i ∈ os, ∀ p ∈ s.nodeBuffer, p.1 ≠ i) →
    (runGets g s os).nodeBuffer = s.nodeBuffer ++ os.map (fun i => (i, tnic g s i)) := by
  induction os with
  | nil => intro s _ _; simp [runGets]
  | cons i tl ih =>
    intro s hnd hfresh
    have hstep : (getItemState g s i).nodeBuffer
        = s.nodeBuffer ++ [(i, tnic g s i)] := by
      show bufferInsert s.nodeBuffer i (tnic g s i) = _
      exact bufferInsert_fresh _ (hfresh i (List.mem_cons_self i tl))
    have htl : (runGets g (getItemState g s i) tl).nodeBuffer
        = (getItemState g s i).nodeBuffer
          ++ tl.map (fun j => (j, tnic g (getItemState g s i) j)) := by
      refine ih (getItemState g s i) (List.Nodup.of_cons hnd) ?_
      intro j hj p hp
      rw [hstep] at hp
      rcases List.mem_append.mp hp with hp | hp
      · exact hfresh j (List.mem_cons_of_mem i hj) p hp
      · have hpi : p = (i, tnic g s i) := by simpa using hp
        rw [hpi]
        show i ≠ j
        intro hij
        subst hij
        exact (List.nodup_cons.mp hnd).1 hj
    show (runGets g (getItemState g s i) tl).nodeBuffer = _
    rw [htl, hstep]
    simp [tnic_getItemState, List.append_assoc]

theorem getItemState_nodeBuffer (g : PyGraph) (s : SeqState) (i : ℕ) :
    (getItemState g s i).nodeBuffer = bufferInsert s.nodeBuffer i (tnic g s i) := rfl

theorem getItemState_nodeOrder (g : PyGraph) (s : SeqState) (i : ℕ) :
    (getItemState g s i).nodeOrder =
      if i = numBatches s - 1 then
        (bufferInsert s.nodeBuffer i (tnic g s i)).flatMap (fun p => p.2)
      else s.nodeOrder := rfl

theorem tnic_runGets (g : PyGraph) (os : List ℕ) (s : SeqState) (i : ℕ) :
    tnic g (runGets g s os) i = tnic g s i := by
  obtain ⟨h1, -, -, h4⟩ := runGets_frame g os s
  rw [tnic, h1, h4, tnic]

theorem numBatches_runGets (g : PyGraph) (os : List ℕ) (s : SeqState) :
    numBatches (runGets g s os) = numBatches s := by
  obtain ⟨-, h2, h3, -⟩ := runGets_frame g os s
  rw [numBatches, h2, h3, numBatches]

theorem flatMap_map_snd (f : ℕ → List ℕ) :
    ∀ l : List ℕ, (l.map (fun i => (i, f i))).flatMap (fun p => p.2) = l.flatMap f := by
  intro l
  induction l with
  | nil => rfl
  | cons a tl ih => simp_all

/-- After retrieving distinct batch indices `os` and then the last batch
index, the buffer holds one entry per retrieved index in retrieval order,
and `node_order` is its flattening in that same (insertion) order. -/
theorem runGets_last_flatten (g : PyGraph) (s : SeqState) (os : List ℕ)
    (hnd : os.Nodup) (hbuf : s.nodeBuffer = [])
    (hlast : numBatches s - 1 ∉ os) :
    (runGets g s (os ++ [numBatches s - 1])).nodeBuffer
      = (os ++ [numBatches s - 1]).map (fun i => (i, tnic g s i)) ∧
    (runGets g s (os ++ [numBatches s - 1])).nodeOrder
      = (os ++ [numBatches s - 1]).flatMap (tnic g s) := by
  have hsplit : runGets g s (os ++ [numBatches s - 1])
      = getItemState g (runGets g s os) (numBatches s - 1) := by
    rw [runGets, List.foldl_append]
    rfl
  have hb1 : (runGets g s os).nodeBuffer = os.map (fun i => (i, tnic g s i)) := by
    rw [runGets_nodeBuffer g os s hnd (by rw [hbuf]; intro i _ p hp; cases hp), hbuf]
    rfl
  have hfresh : ∀ p ∈ (runGets g s os).nodeBuffer, p.1 ≠ numBatches s - 1 := by
    intro p hp
    rw [hb1] at hp
    obtain ⟨i, hi, rfl⟩ := List.mem_map.mp hp
    exact fun h => hlast (h ▸ hi)
  have hb2 : (getItemState g (runGets g s os) (numBatches s - 1)).nodeBuffer
      = (os ++ [numBatches s - 1]).map (fun i => (i, tnic g s i)) := by
    rw [getItemState_nodeBuffer,
      bufferInsert_fresh _ hfresh, hb1, tnic_runGets, List.map_append]
    rfl
  refine ⟨by rw [hsplit, hb2], ?_⟩
  rw [hsplit, getItemState_nodeOrder, numBatches_runGets, if_pos rfl,
    bufferInsert_fresh _ hfresh, hb1, tnic_runGets]
  have : (os.map (fun i => (i, tnic g s i)) ++ [(numBatches s - 1, tnic g s (numBatches s - 1))])
      = (os ++ [numBatches s - 1]).map (fun i => (i, tnic g s i)) :=
    (List.map_append (fun i => (i, tnic g s i)) os [numBatches s - 1]).symm
  rw [this, flatMap_map_snd]

/-- A concrete three-node graph for counterexamples and witnesses. -/
def gEx : PyGraph := ⟨[0, 1, 2]⟩

/-- A fresh sequence state over three singleton clusters, all three nodes
being targets, `q = 1` (so three batches per epoch). -/
def sEx : SeqState := ⟨[[0], [1], [2]], [[0], [1], [2]], 1, [0, 1, 2], [], []⟩

def insertAsc (x : ℕ) : List ℕ → List ℕ
  | [] => [x]
  | y :: ys => if x ≤ y then x :: y :: ys else y :: insertAsc x ys

def sortAsc : List ℕ → List ℕ
  | [] => []
  | x :: xs => insertAsc x (sortAsc xs)

/-- Modelled from the spec: flattening the node buffer "in ascending stored
batch-index order" — keys sorted ascending, each key's recorded target-node
list appended in turn.  Stated only to compare against what the code
computes. -/
def specFlattenAscending (buf : List (ℕ × List ℕ)) : List ℕ :=
  (sortAsc (buf.map Prod.fst)).flatMap (fun i => (buf.lookup i).getD [])

/-- C8 counterexample: retrieving the batch indices in the order
`1, 0, 2` stores buffer keys in that insertion order, and the flatten
performed at index `2` follows the dict's insertion order (`[1, 0, 2]`),
not the ascending stored-index order (`[0, 1, 2]`) that the claim states. -/
theorem C8_counterexample :
    (runGets gEx sEx [1, 0, 2]).nodeOrder = [1, 0, 2] ∧
    specFlattenAscending (runGets gEx sEx [1, 0, 2]).nodeBuffer = [0, 1, 2] ∧
    (runGets gEx sEx [1, 0, 2]).nodeOrder
      ≠ specFlattenAscending (runGets gEx sEx [1, 0, 2]).nodeBuffer :=
  ⟨by decide, by decide, by decide⟩

/-- C8 amended: in every epoch and for every retrieval order, when the last
batch index is retrieved, `node_order` becomes the flattening of the node
buffer in the buffer's stored (insertion, i.e. first-retrieval) order —
each entry's recorded target nodes extended in turn — not in ascending
stored-index order. -/
theorem C8_node_order_flatten (g : PyGraph) (s : SeqState) (os : List ℕ)
    (hnd : os.Nodup) (hbuf : s.nodeBuffer = [])
    (hlast : numBatches s - 1 ∉ os) :
    (runGets g s (os ++ [numBatches s - 1])).nodeOrder
      = (runGets g s (os ++ [numBatches s - 1])).nodeBuffer.flatMap (fun p => p.2) ∧
    (runGets g s (os ++ [numBatches s - 1])).nodeBuffer
      = (os ++ [numBatches s - 1]).map (fun i => (i, tnic g s i)) := by
  obtain ⟨hb, ho⟩ := runGets_last_flatten g s os hnd hbuf hlast
  exact ⟨by rw [ho, hb, flatMap_map_snd], hb⟩

/-- C8 witness: the amended statement at the concrete state, retrieval
order `1, 0` then the final index `2`. -/
theorem C8_node_order_flatten_witness :
    ([1, 0] : List ℕ).Nodup ∧ sEx.nodeBuffer = [] ∧
    numBatches sEx - 1 ∉ ([1, 0] : List ℕ) ∧
    ((runGets gEx sEx ([1, 0] ++ [numBatches sEx - 1])).nodeOrder
       = (runGets gEx sEx ([1, 0] ++ [numBatches sEx - 1])).nodeBuffer.flatMap
           (fun p => p.2) ∧
     (runGets gEx sEx ([1, 0] ++ [numBatches sEx - 1])).nodeBuffer
       = ([1, 0] ++ [numBatches sEx - 1]).map (fun i => (i, tnic gEx sEx i))) :=
  ⟨by decide, rfl, by decide,
    C8_node_order_flatten gEx sEx [1, 0] (by decide) rfl (by decide)⟩

theorem tnic_nodup (g : PyGraph) (s : SeqState) (i : ℕ) : (tnic g s i).Nodup :=
  List.Nodup.filter _ (List.nodup_dedup _)

theorem mem_tnic {g : PyGraph} {s : SeqState} {i t : ℕ} :
    t ∈ tnic g s i ↔ t ∈ g.nodes ∧ t ∈ s.clusters.getD i [] ∧ t ∈ s.targetIds := by
  simp [tnic, targetNodesInCluster, pySubgraphNodes, List.mem_filter, List.mem_dedup,
    List.contains, List.elem_iff, and_assoc]

theorem count_tnic (g : PyGraph) (s : SeqState) (i t : ℕ) :
    (tnic g s i).count t = if t ∈ tnic g s i then 1 else 0 := by
  by_cases h : t ∈ tnic g s i
  · rw [if_pos h, List.count_eq_one_of_mem (tnic_nodup g s i) h]
  · rw [if_neg h, List.count_eq_zero_of_not_mem h]

theorem sum_map_indicator_zero {P : ℕ → Prop} [DecidablePred P] {l : List ℕ}
    (h : ∀ i ∈ l, ¬ P i) : (l.map (fun i => if P i then (1:ℕ) else 0)).sum = 0 := by
  refine List.sum_eq_zero ?_
  intro x hx
  obtain ⟨i, hi, rfl⟩ := List.mem_map.mp hx
  rw [if_neg (h i hi)]

theorem sum_map_single {P : ℕ → Prop} [DecidablePred P] : ∀ {l : List ℕ} {j : ℕ},
    l.Nodup → j ∈ l → P j → (∀ i ∈ l, P i → i = j) →
    (l.map (fun i => if P i then (1:ℕ) else 0)).sum = 1 := by
  intro l
  induction l with
  | nil => intro j _ hj; cases hj
  | cons x xs ih =>
    intro j hnd hj hP huniq
    rcases List.mem_cons.mp hj with rfl | hj
    · rw [List.map_cons, List.sum_cons, if_pos hP,
        sum_map_indicator_zero (fun i hi hPi =>
          (List.nodup_cons.mp hnd).1 ((huniq i (List.mem_cons_of_mem _ hi) hPi) ▸ hi))]
    · have hx : ¬ P x := fun hPx =>
        (List.nodup_cons.mp hnd).1 ((huniq x (List.mem_cons_self x xs) hPx) ▸ hj)
      rw [List.map_cons, List.sum_cons, if_neg hx, Nat.zero_add]
      exact ih (List.nodup_cons.mp hnd).2 hj hP
        (fun i hi hPi => huniq i (List.mem_cons_of_mem _ hi) hPi)

/-- C5 counterexample: retrieving the batch indices in the order `2, 0, 1`
— each index of the epoch exactly once — flattens the buffer already at
the first retrieval (index `2` is the last batch index), so after the
epoch `node_order` is `[2]`: target `0` appears in a working cluster but
is omitted. -/
theorem C5_counterexample :
    ([2, 0, 1] : List ℕ).Perm (List.range (numBatches sEx)) ∧
    0 ∈ sEx.targetIds ∧ (∃ c ∈ sEx.clusters, 0 ∈ c) ∧
    (runGets gEx sEx [2, 0, 1]).nodeOrder = [2] ∧
    0 ∉ (runGets gEx sEx [2, 0, 1]).nodeOrder :=
  ⟨by decide, by decide, by decide, by decide, by decide⟩

/-- C5 amended: in an epoch where every batch index is retrieved exactly
once and the last batch index (`len - 1`) is retrieved last, `node_order`
afterwards contains exactly those target ids that appear in some working
cluster, each exactly once — given that the working clusters cover exactly
the batch indices, their nodes are graph nodes, and they are pairwise
disjoint. -/
theorem C5_node_order_complete (g : PyGraph) (s : SeqState) (os : List ℕ) (t : ℕ)
    (hperm : (os ++ [numBatches s - 1]).Perm (List.range (numBatches s)))
    (hbuf : s.nodeBuffer = [])
    (hlen : s.clusters.length = numBatches s)
    (hsub : ∀ c ∈ s.clusters, ∀ v ∈ c, v ∈ g.nodes)
    (hdisj : s.clusters.Pairwise (fun a b => ∀ x ∈ a, x ∉ b)) :
    (runGets g s (os ++ [numBatches s - 1])).nodeOrder.count t
      = if t ∈ s.targetIds ∧ ∃ c ∈ s.clusters, t ∈ c then 1 else 0 := by
  have hndall : (os ++ [numBatches s - 1]).Nodup :=
    (hperm.nodup_iff).mpr (List.nodup_range _)
  have hnd : os.Nodup := (List.nodup_append.mp hndall).1
  have hlast : numBatches s - 1 ∉ os := by
    intro hmem
    exact (List.nodup_append.mp hndall).2.2 hmem (List.mem_cons_self _ _)
  obtain ⟨-, ho⟩ := runGets_last_flatten g s os hnd hbuf hlast
  rw [ho, ((hperm.flatMap_right (tnic g s)).count_eq t), List.count_flatMap]
  have hfun : (List.count t ∘ tnic g s) = fun i => if t ∈ tnic g s i then 1 else 0 :=
    funext (fun i => count_tnic g s i t)
  rw [hfun]
  by_cases hP : t ∈ s.targetIds ∧ ∃ c ∈ s.clusters, t ∈ c
  · rw [if_pos hP]
    obtain ⟨ht, c, hc, htc⟩ := hP
    obtain ⟨j, hjlt, rfl⟩ := List.mem_iff_getElem.mp hc
    have hjm : j < numBatches s := hlen ▸ hjlt
    have hjmem : t ∈ tnic g s j := by
      rw [mem_tnic]
      refine ⟨hsub _ hc _ htc, ?_, ht⟩
      rw [List.getD_eq_getElem _ _ hjlt]
      exact htc
    refine sum_map_single (List.nodup_range _) (List.mem_range.mpr hjm) hjmem ?_
    intro i hi hPi
    have hilt : i < s.clusters.length := hlen ▸ List.mem_range.mp hi
    have hti : t ∈ s.clusters[i] := by
      have := (mem_tnic.mp hPi).2.1
      rwa [List.getD_eq_getElem _ _ hilt] at this
    by_contra hij
    rcases Nat.lt_or_ge i j with hlt | hge
    · exact (List.pairwise_iff_getElem.mp hdisj i j hilt hjlt hlt) t hti htc
    · have hlt : j < i := Nat.lt_of_le_of_ne hge (fun h => hij h.symm)
      exact (List.pairwise_iff_getElem.mp hdisj j i hjlt hilt hlt) t htc hti
  · rw [if_neg hP]
    refine sum_map_indicator_zero ?_
    intro i hi hti
    obtain ⟨hg, hcl, ht⟩ := mem_tnic.mp hti
    refine hP ⟨ht, s.clusters.getD i [], ?_, hcl⟩
    by_cases hilt : i < s.clusters.length
    · rw [List.getD_eq_getElem _ _ hilt]
      exact List.getElem_mem hilt
    · rw [List.getD_eq_default _ _ (Nat.le_of_not_lt hilt)] at hcl
      cases hcl

/-- C5 witness: ascending retrieval over the concrete three-cluster state;
target `0` is counted exactly once in `node_order`. -/
theorem C5_node_order_complete_witness :
    (([0, 1] ++ [numBatches sEx - 1] : List ℕ)).Perm (List.range (numBatches sEx)) ∧
    sEx.nodeBuffer = [] ∧
    sEx.clusters.length = numBatches sEx ∧
    (∀ c ∈ sEx.clusters, ∀ v ∈ c, v ∈ gEx.nodes) ∧
    sEx.clusters.Pairwise (fun a b => ∀ x ∈ a, x ∉ b) ∧
    (runGets gEx sEx ([0, 1] ++ [numBatches sEx - 1])).nodeOrder.count 0
      = if 0 ∈ sEx.targetIds ∧ ∃ c ∈ sEx.clusters, 0 ∈ c then 1 else 0 :=
  ⟨by decide, rfl, by decide, by decide, by decide,
    C5_node_order_complete gEx sEx [0, 1] 0 (by decide) rfl (by decide) (by decide)
      (by decide)⟩

theorem lookup_isSome_iff {β : Type} (v : ℕ) :
    ∀ l : List (ℕ × β), (l.lookup v).isSome ↔ v ∈ l.map Prod.fst := by
  intro l
  induction l with
  | nil => simp [List.lookup]
  | cons p tl ih =>
    obtain ⟨a, b⟩ := p
    by_cases h : a = v
    · subst h
      simp [List.lookup]
    · have hne : (v == a) = false := beq_eq_false_iff_ne.mpr (fun hh => h hh.symm)
      simp only [List.lookup, hne, List.map_cons, List.mem_cons, ih]
      constructor
      · exact fun hm => .inr hm
      · rintro (hv | hv)
        · exact absurd hv.symm h
        · exact hv

theorem pyDictLookup_isSome_of_mem {keys : List ℕ} {v : ℕ} (h : v ∈ keys) :
    (pyDictLookup keys v).isSome := by
  rw [pyDictLookup, lookup_isSome_iff, List.map_reverse,
    List.map_fst_zip _ _ (by rw [List.length_range]), List.mem_reverse]
  exact h

theorem mem_bufferInsert {buf : List (ℕ × List ℕ)} {i : ℕ} {v : List ℕ}
    {p : ℕ × List ℕ} (h : p ∈ bufferInsert buf i v) : p ∈ buf ∨ p = (i, v) := by
  rw [bufferInsert] at h
  split at h
  · obtain ⟨q, hq, hpq⟩ := List.mem_map.mp h
    by_cases hqi : q.1 = i
    · rw [if_pos hqi] at hpq
      exact .inr hpq.symm
    · rw [if_neg hqi] at hpq
      exact .inl (hpq ▸ hq)
  · rcases List.mem_append.mp h with h | h
    · exact .inl h
    · exact .inr (by simpa using h)

/-- Every id recorded in the buffer or in `node_order` during any run is a
graph node (batch targets come from subgraph node lists). -/
theorem runOps_records_graph_nodes (g : PyGraph) (ops : List SeqOp) :
    ∀ s : SeqState,
    (∀ p ∈ s.nodeBuffer, ∀ v ∈ p.2, v ∈ g.nodes) →
    (∀ v ∈ s.nodeOrder, v ∈ g.nodes) →
    (∀ p ∈ (runOps g s ops).nodeBuffer, ∀ v ∈ p.2, v ∈ g.nodes) ∧
    (∀ v ∈ (runOps g s ops).nodeOrder, v ∈ g.nodes) := by
  induction ops with
  | nil => exact fun s h1 h2 => ⟨h1, h2⟩
  | cons op tl ih =>
    intro s h1 h2
    cases op with
    | epochEnd p1 p2 =>
      refine ih (onEpochEnd s p1 p2) ?_ ?_
      · intro p hp; cases hp
      · exact h2
    | get i =>
      have hb : ∀ p ∈ (getItemState g s i).nodeBuffer, ∀ v ∈ p.2, v ∈ g.nodes := by
        intro p hp v hv
        rw [getItemState_nodeBuffer] at hp
        rcases mem_bufferInsert hp with hp | rfl
        · exact h1 p hp v hv
        · exact (mem_tnic.mp hv).1
      refine ih (getItemState g s i) hb ?_
      intro v hv
      rw [getItemState_nodeOrder] at hv
      split at hv
      · obtain ⟨p, hp, hvp⟩ := List.mem_flatMap.mp hv
        exact hb p (by rw [getItemState_nodeBuffer]; exact hp) v hvp
      · exact h2 v hv

/-- C10: every node in `target_nodes_in_cluster` is a key of both the
local `node_lookup` and the `target_node_lookup` (so the gathers never
raise a key error), and a target id that is not a graph node is silently
skipped: it never enters a batch's target set nor `node_order`. -/
theorem C10_lookup_safety (g : PyGraph) (s : SeqState) (index : ℕ)
    (ops : List SeqOp) (t : ℕ)
    (hbuf : ∀ p ∈ s.nodeBuffer, ∀ v ∈ p.2, v ∈ g.nodes)
    (horder : ∀ v ∈ s.nodeOrder, v ∈ g.nodes)
    (ht : t ∉ g.nodes) :
    (∀ v ∈ tnic g s index,
       (pyDictLookup (pySubgraphNodes g (s.clusters.getD index [])) v).isSome ∧
       (pyDictLookup s.targetIds v).isSome) ∧
    t ∉ tnic g s index ∧
    t ∉ (runOps g s ops).nodeOrder := by
  refine ⟨?_, ?_, ?_⟩
  · intro v hv
    have hvg : v ∈ pySubgraphNodes g (s.clusters.getD index []) := by
      have := (List.mem_filter.mp hv).1
      exact List.mem_dedup.mp this
    have hvt : v ∈ s.targetIds := (mem_tnic.mp hv).2.2
    exact ⟨pyDictLookup_isSome_of_mem hvg, pyDictLookup_isSome_of_mem hvt⟩
  · intro hmem
    exact ht (mem_tnic.mp hmem).1
  · intro hmem
    exact ht ((runOps_records_graph_nodes g ops s hbuf horder).2 t hmem)

/-- C10 witness: a target id `7` absent from the concrete graph is skipped
throughout a run with retrievals and an epoch end. -/
theorem C10_lookup_safety_witness :
    (∀ p ∈ sEx.nodeBuffer, ∀ v ∈ p.2, v ∈ gEx.nodes) ∧
    (∀ v ∈ sEx.nodeOrder, v ∈ gEx.nodes) ∧
    (7 : ℕ) ∉ gEx.nodes ∧
    ((∀ v ∈ tnic gEx sEx 0,
        (pyDictLookup (pySubgraphNodes gEx (sEx.clusters.getD 0 [])) v).isSome ∧
        (pyDictLookup sEx.targetIds v).isSome) ∧
     (7 : ℕ) ∉ tnic gEx sEx 0 ∧
     (7 : ℕ) ∉ (runOps gEx sEx
        [.get 0, .epochEnd [0, 1, 2] [0, 1, 2], .get 1]).nodeOrder) :=
  ⟨by decide, by decide, by decide,
    C10_lookup_safety gEx sEx 0 [.get 0, .epochEnd [0, 1, 2] [0, 1, 2], .get 1] 7
      (by decide) (by decide) (by decide)⟩

/-! ## Theorems: epoch-end cluster combination -/

theorem pyRange_div (L q : ℕ) (hq : 1 < q) (hd : q ∣ L) :
    (L - 1 + q - 1) / q = L / q := by
  obtain ⟨m, rfl⟩ := hd
  rcases Nat.eq_zero_or_pos m with rfl | hm
  · rw [Nat.mul_zero]
    rw [Nat.div_eq_of_lt (by omega), Nat.div_eq_of_lt (by omega)]
  · have hge : q ≤ q * m := Nat.le_mul_of_pos_right q hm
    have h1 : q * m - 1 + q - 1 = (q - 2) + q * m := by omega
    rw [h1, Nat.add_mul_div_left _ _ (by omega : 0 < q),
      Nat.div_eq_of_lt (by omega : q - 2 < q), Nat.mul_div_cancel_left m (by omega : 0 < q)]
    omega

theorem combineClusters_eq (orig : List (List ℕ)) (q : ℕ) (idxPerm : List ℕ)
    (hq : 1 < q) (hd : q ∣ orig.length) :
    combineClusters orig q idxPerm
      = (List.range (orig.length / q)).map
          (fun j => ((idxPerm.drop (j * q)).take q).flatMap
            (fun l => orig.getD l [])) := by
  rw [combineClusters, if_pos hq, pyRange, pyRange_div _ _ hq hd, List.map_map]
  rfl

theorem range_flatMap_chunks (q : ℕ) (xs : List ℕ) : ∀ m : ℕ,
    (List.range m).flatMap (fun j => (xs.drop (j * q)).take q) = xs.take (m * q) := by
  intro m
  induction m with
  | zero => simp
  | succ m ih =>
    rw [List.range_succ, List.flatMap_append, ih]
    simp only [List.flatMap_cons, List.flatMap_nil, List.append_nil]
    rw [Nat.succ_mul, List.take_add]

theorem map_getD_range {α : Type} (d : α) : ∀ l : List α,
    (List.range l.length).map (fun i => l.getD i d) = l := by
  intro l
  induction l with
  | nil => rfl
  | cons a tl ih =>
    rw [List.length_cons, List.range_succ_eq_map, List.map_cons, List.map_map]
    show a :: (List.range tl.length).map (fun i => tl.getD i d) = a :: tl
    rw [ih]

theorem range_getD_flatMap (orig : List (List ℕ)) :
    (List.range orig.length).flatMap (fun l => orig.getD l []) = orig.flatMap id := by
  rw [List.flatMap_def, map_getD_range, List.flatMap_id]

theorem flatMap_id_map {α : Type} (h : ℕ → List α) (l : List ℕ) :
    (l.map h).flatMap id = l.flatMap h := by
  rw [List.flatMap_id, List.flatMap_def]

/-- What `on_epoch_end` builds when `q > 1`: after the final shuffle the
working list has `len // q` clusters; each is the concatenation of the
clusters at `q` distinct original indices; and jointly they are a
rearrangement of all the original clusters' nodes. -/
theorem combine_shuffle_spec (orig : List (List ℕ)) (q : ℕ) (idxPerm outPerm : List ℕ)
    (hq : 1 < q) (hd : q ∣ orig.length)
    (hidx : idxPerm.Perm (List.range orig.length))
    (hout : outPerm.Perm (List.range (orig.length / q))) :
    (applyShuffle (combineClusters orig q idxPerm) outPerm).length = orig.length / q ∧
    (∀ c ∈ applyShuffle (combineClusters orig q idxPerm) outPerm, ∃ gidx : List ℕ,
        gidx.Nodup ∧ gidx.length = q ∧ (∀ l ∈ gidx, l < orig.length) ∧
        c = gidx.flatMap (fun l => orig.getD l [])) ∧
    ((applyShuffle (combineClusters orig q idxPerm) outPerm).flatMap id).Perm
      (orig.flatMap id) := by
  have hcomb : combineClusters orig q idxPerm
      = (List.range (orig.length / q)).map
          (fun j => ((idxPerm.drop (j * q)).take q).flatMap (fun l => orig.getD l [])) :=
    combineClusters_eq orig q idxPerm hq hd
  have hcomblen : (combineClusters orig q idxPerm).length = orig.length / q := by
    rw [hcomb, List.length_map, List.length_range]
  have hidxlen : idxPerm.length = orig.length := by
    rw [hidx.length_eq, List.length_range]
  have hmq : orig.length / q * q = orig.length := Nat.div_mul_cancel hd
  have hidxnd : idxPerm.Nodup := (hidx.nodup_iff).mpr (List.nodup_range _)
  have hcombflat : (combineClusters orig q idxPerm).flatMap id
      = idxPerm.flatMap (fun l => orig.getD l []) := by
    rw [hcomb, flatMap_id_map]
    calc (List.range (orig.length / q)).flatMap
          (fun j => ((idxPerm.drop (j * q)).take q).flatMap (fun l => orig.getD l []))
        = ((List.range (orig.length / q)).flatMap
            (fun j => (idxPerm.drop (j * q)).take q)).flatMap (fun l => orig.getD l []) :=
          (List.flatMap_assoc _ _ _).symm
      _ = (idxPerm.take (orig.length / q * q)).flatMap (fun l => orig.getD l []) := by
          rw [range_flatMap_chunks]
      _ = idxPerm.flatMap (fun l => orig.getD l []) := by
          rw [hmq, ← hidxlen, List.take_length]
  refine ⟨?_, ?_, ?_⟩
  · rw [applyShuffle, List.length_map, hout.length_eq, List.length_range]
  · intro c hc
    rw [applyShuffle] at hc
    obtain ⟨i, hi, rfl⟩ := List.mem_map.mp hc
    have him : i < orig.length / q := List.mem_range.mp (hout.mem_iff.mp hi)
    have hilen : i < (combineClusters orig q idxPerm).length := by rw [hcomblen]; exact him
    have hcombi : (combineClusters orig q idxPerm).getD i []
        = ((idxPerm.drop (i * q)).take q).flatMap (fun l => orig.getD l []) := by
      have hmap : i < ((List.range (orig.length / q)).map
          (fun j => ((idxPerm.drop (j * q)).take q).flatMap (fun l => orig.getD l []))).length := by
        rw [List.length_map, List.length_range]; exact him
      rw [hcomb, List.getD_eq_getElem _ _ hmap, List.getElem_map, List.getElem_range]
    have hsub : ((idxPerm.drop (i * q)).take q).Sublist idxPerm :=
      (List.take_sublist _ _).trans (List.drop_sublist _ _)
    refine ⟨(idxPerm.drop (i * q)).take q, List.Nodup.sublist hsub hidxnd, ?_, ?_, hcombi⟩
    · rw [List.length_take, List.length_drop, hidxlen]
      have hi1 : i + 1 ≤ orig.length / q := him
      have h2 : (i + 1) * q ≤ orig.length / q * q := Nat.mul_le_mul_right q hi1
      have h3 : (i + 1) * q = i * q + q := Nat.succ_mul i q
      exact min_eq_left (by omega)
    · intro l hl
      exact List.mem_range.mp (hidx.mem_iff.mp (hsub.subset hl))
  · have hsh : (applyShuffle (combineClusters orig q idxPerm) outPerm).flatMap id
        = outPerm.flatMap (fun i => (combineClusters orig q idxPerm).getD i []) := by
      rw [applyShuffle, flatMap_id_map]
    rw [hsh]
    have hp1 : (outPerm.flatMap (fun i => (combineClusters orig q idxPerm).getD i [])).Perm
        ((List.range (orig.length / q)).flatMap
          (fun i => (combineClusters orig q idxPerm).getD i [])) :=
      hout.flatMap_right _
    have hp2 : (List.range (orig.length / q)).flatMap
          (fun i => (combineClusters orig q idxPerm).getD i [])
        = (combineClusters orig q idxPerm).flatMap id := by
      rw [← hcomblen]
      exact range_getD_flatMap _
    refine hp1.trans ?_
    rw [hp2, hcombflat]
    have hp3 : (idxPerm.flatMap (fun l => orig.getD l [])).Perm
        ((List.range orig.length).flatMap (fun l => orig.getD l [])) :=
      hidx.flatMap_right _
    refine hp3.trans ?_
    rw [range_getD_flatMap]

/-- C4: the number of batches per epoch is `len(clusters_original) // q`;
and with `q > 1` dividing the original length `L`, every epoch-end
invocation rebuilds the working list into exactly `L / q` combined
clusters, each the concatenation of the node lists of `q` distinct
original clusters, with no node repeated across the combined clusters
(given the original clusters jointly repeat no node). -/
theorem C4_epoch_grouping (s : SeqState) (idxPerm outPerm : List ℕ)
    (hq : 1 < s.q) (hd : s.q ∣ s.clustersOriginal.length)
    (hidx : idxPerm.Perm (List.range s.clustersOriginal.length))
    (hout : outPerm.Perm (List.range (s.clustersOriginal.length / s.q)))
    (hnodup : (s.clustersOriginal.flatMap id).Nodup) :
    numBatches s = s.clustersOriginal.length / s.q ∧
    (onEpochEnd s idxPerm outPerm).clusters.length = s.clustersOriginal.length / s.q ∧
    (∀ c ∈ (onEpochEnd s idxPerm outPerm).clusters, ∃ gidx : List ℕ,
        gidx.Nodup ∧ gidx.length = s.q ∧
        (∀ l ∈ gidx, l < s.clustersOriginal.length) ∧
        c = gidx.flatMap (fun l => s.clustersOriginal.getD l [])) ∧
    ((onEpochEnd s idxPerm outPerm).clusters.flatMap id).Nodup := by
  obtain ⟨h1, h2, h3⟩ :=
    combine_shuffle_spec s.clustersOriginal s.q idxPerm outPerm hq hd hidx hout
  have hcl : (onEpochEnd s idxPerm outPerm).clusters
      = applyShuffle (combineClusters s.clustersOriginal s.q idxPerm) outPerm := rfl
  refine ⟨rfl, by rw [hcl]; exact h1, by rw [hcl]; exact h2, ?_⟩
  rw [hcl]
  exact (h3.nodup_iff).mpr hnodup

/-- A fresh sequence state over four singleton original clusters with
`q = 2`, for the epoch-grouping witness. -/
def s4Ex : SeqState := ⟨[[0], [1], [2], [3]], [], 2, [], [], []⟩

/-- C4 witness: four original clusters, `q = 2`, concrete shuffles. -/
theorem C4_epoch_grouping_witness :
    1 < s4Ex.q ∧ s4Ex.q ∣ s4Ex.clustersOriginal.length ∧
    ([2, 0, 3, 1] : List ℕ).Perm (List.range s4Ex.clustersOriginal.length) ∧
    ([1, 0] : List ℕ).Perm (List.range (s4Ex.clustersOriginal.length / s4Ex.q)) ∧
    (s4Ex.clustersOriginal.flatMap id).Nodup ∧
    (numBatches s4Ex = s4Ex.clustersOriginal.length / s4Ex.q ∧
     (onEpochEnd s4Ex [2, 0, 3, 1] [1, 0]).clusters.length
       = s4Ex.clustersOriginal.length / s4Ex.q ∧
     (∀ c ∈ (onEpochEnd s4Ex [2, 0, 3, 1] [1, 0]).clusters, ∃ gidx : List ℕ,
        gidx.Nodup ∧ gidx.length = s4Ex.q ∧
        (∀ l ∈ gidx, l < s4Ex.clustersOriginal.length) ∧
        c = gidx.flatMap (fun l => s4Ex.clustersOriginal.getD l [])) ∧
     ((onEpochEnd s4Ex [2, 0, 3, 1] [1, 0]).clusters.flatMap id).Nodup) :=
  ⟨by decide, by decide, by decide, by decide, by decide,
    C4_epoch_grouping s4Ex [2, 0, 3, 1] [1, 0] (by decide) (by decide) (by decide)
      (by decide) (by decide)⟩

end ClusterGCN
